import Mathlib

/-
Shallow embedding of `graph_algorithms.py`: the `values` enum of signed
infinities, the `Graph` class with its nested `_Edge` class, the Dijkstra and
Floyd-Warshall methods, and the `Matrix` class with addition, minors and the
determinant.  Numeric values of the source (Python ints and floats; the
repository only ever exercises integral values, and every operation used here
acts identically on `0.0` and `0`) are modelled as `Int`.

Python raising an exception is modelled as `Except.error`; a Python function
returning the value `None` is modelled by an explicit `none`-like constructor
of the value domain, never by `Except.error`.
-/

/--
Value domain of the graph layer.  Fields and intermediate values of the graph
code hold Python ints/floats (`int`), strings (`str`), `None` (`vnone`) or the
enum member `values._inf` (`inf`).  The enum member `values._neg_inf` is never
constructed anywhere in the graph code (distances are initialised to
`values._inf` and `0`, and `_edge_weight` returns a stored weight or
`values._inf`), so it is not part of this domain; the two-member enum itself,
with both members, is embedded separately as `PyNum` below for the arithmetic
claims about `values.__add__`.
-/
inductive PyVal where
  | vnone
  | int (n : Int)
  | str (s : String)
  | inf
deriving DecidableEq, Repr

/--
Python addition `x + y` on the graph layer's value domain, following Python's
dispatch: `int.__add__`, `str.__add__`, `values.__add__` (which handles
`float`/`int` operands and same-valued enum members, and otherwise falls off
the end of its body returning the value `None`, because its final
`NotImplemented` is an expression statement, not a `return`), and
`values.__radd__` (which evaluates `self + other`).  `Option.none` models an
exception (`TypeError`); `some .vnone` models the method returning Python
`None` as a value.
-/
def pyAddO : PyVal → PyVal → Option PyVal
  | .int a, .int b => some (.int (a + b))
  | .int _, .inf => some .inf
  | .int _, .str _ => none
  | .int _, .vnone => none
  | .str a, .str b => some (.str (a ++ b))
  | .str _, .int _ => none
  | .str _, .inf => some .vnone
  | .str _, .vnone => none
  | .inf, .int _ => some .inf
  | .inf, .inf => some .inf
  | .inf, .str _ => some .vnone
  | .inf, .vnone => some .vnone
  | .vnone, .int _ => none
  | .vnone, .str _ => none
  | .vnone, .inf => some .vnone
  | .vnone, .vnone => none

/--
Truth value of the Python comparison `x > y` as used in an `if` condition, on
the graph layer's value domain.  `values.__gt__` returns `self is self._inf`
against an int/float, compares `value` members against another enum member,
and returns Python `None` (falsy) against anything else; an int on the left
against the enum defers to the reflected `values.__lt__`, which returns
`self is self._neg_inf`, i.e. `False` for `values._inf`.  `Option.none` models
a `TypeError` (unorderable operands).
-/
def pyGTb : PyVal → PyVal → Option Bool
  | .int a, .int b => some (decide (a > b))
  | .int _, .inf => some false
  | .int _, .str _ => none
  | .int _, .vnone => none
  | .str a, .str b => some (decide (b < a))
  | .str _, .int _ => none
  | .str _, .inf => some false
  | .str _, .vnone => none
  | .inf, .int _ => some true
  | .inf, .inf => some false
  | .inf, .str _ => some false
  | .inf, .vnone => some false
  | .vnone, .inf => some false
  | .vnone, .int _ => none
  | .vnone, .str _ => none
  | .vnone, .vnone => none

/--
Truth value of the Python comparison `x < y` as used by `min`, on the graph
layer's value domain, by the dual dispatch of `pyGTb`: `values.__lt__` returns
`self is self._neg_inf` against an int/float (hence `False` for `values._inf`)
and Python `None` (falsy) against non-numeric operands; an int on the left
against the enum defers to the reflected `values.__gt__`, which returns `True`
for `values._inf`.
-/
def pyLTb : PyVal → PyVal → Option Bool
  | .int a, .int b => some (decide (a < b))
  | .int _, .inf => some true
  | .int _, .str _ => none
  | .int _, .vnone => none
  | .str a, .str b => some (decide (a < b))
  | .str _, .int _ => none
  | .str _, .inf => some false
  | .str _, .vnone => none
  | .inf, .int _ => some false
  | .inf, .inf => some false
  | .inf, .str _ => some false
  | .inf, .vnone => some false
  | .vnone, .inf => some false
  | .vnone, .int _ => none
  | .vnone, .str _ => none
  | .vnone, .vnone => none

/--
The `values` enum (`values._neg_inf`, `values._inf`) together with the finite
numbers it can meet in an addition, for the claims about `values.__add__`.
-/
inductive PyNum where
  | fin (n : Int)
  | pinf
  | ninf
deriving DecidableEq, Repr

/--
Python addition `x + y` where at least the dispatch of `values.__add__` and
`values.__radd__` is in play.  `values.__add__` returns `self` on an int/float
operand and on an equal enum member; on the other enum member it evaluates the
expression statement `NotImplemented` without returning it and falls off the
end of the body, so Python receives the value `None` as the result of the
addition (modelled as `Option.none`): no exception is raised.  A finite left
operand dispatches through `int.__add__`/`float.__add__` (which return
`NotImplemented` on an enum operand) to `values.__radd__`, which evaluates
`self + other`.
-/
def pyNumAdd : PyNum → PyNum → Option PyNum
  | .fin a, .fin b => some (.fin (a + b))
  | .fin _, .pinf => some .pinf
  | .fin _, .ninf => some .ninf
  | .pinf, .fin _ => some .pinf
  | .ninf, .fin _ => some .ninf
  | .pinf, .pinf => some .pinf
  | .ninf, .ninf => some .ninf
  | .pinf, .ninf => none
  | .ninf, .pinf => none

/--
`Graph._Edge`: a pair of vertices together with a weight and a label.  The
constructor signature is `__init__(self, u, v, weight=0.0, label=None)`; the
`weight` and `label` fields hold whatever Python values the call site passed
positionally, hence their type is `PyVal`.  Vertices of every graph in this
repository are ints.
-/
structure Edge where
  u : Int
  v : Int
  weight : PyVal
  label : PyVal
deriving DecidableEq, Repr

/--
`_Edge.reverse`: returns `Graph._Edge(self._v, self._u, self._label,
self._weight)`.  Positionally the third constructor argument is `weight` and
the fourth is `label`, so the reversed edge's `weight` field receives the
original `label` and its `label` field receives the original `weight` —
contradicting the method's own docstring ("This edge has the same weight and
label").  The embedding reproduces the source exactly.
-/
def Edge.reverse (e : Edge) : Edge :=
  { u := e.v, v := e.u, weight := e.label, label := e.weight }

/--
`_Edge.__eq__(self, other)`: `other._u == self._u and other._v == self._v`.
Weight and label are not part of edge equality (`__hash__` is likewise
`hash((self._u, self._v))`).
-/
def Edge.pyEq (self other : Edge) : Bool :=
  decide (other.u = self.u) && decide (other.v = self.v)

/--
`set.add` on a Python set of `_Edge` under `_Edge.__eq__`/`_Edge.__hash__`:
if an element equal to `e` (same endpoints) is already present, the set is
unchanged and keeps its original element (first writer wins); otherwise `e`
is added.  The set is modelled as the list of its elements in insertion
order.
-/
def setAdd (es : List Edge) (e : Edge) : List Edge :=
  if es.any (fun x => Edge.pyEq x e) then es else es ++ [e]

/--
`Graph`: a vertex set (modelled as the list of its elements; every graph the
claims touch has distinct small non-negative int vertices, for which CPython
set iteration is in ascending value order, matching the sorted order used
below), an edge set in insertion order, and a directedness flag.
-/
structure Graph where
  vertices : List Int
  edges : List Edge
  directed : Bool
deriving DecidableEq, Repr

/--
An element of the `edges` argument of the `Graph` constructor: a tuple of
length 2, 3 or 4, or an `_Edge` instance, as dispatched by
`Graph._populate_edges`.
-/
inductive EdgeDesc where
  | pair (u v : Int)
  | triple (u v : Int) (w : PyVal)
  | quad (u v : Int) (w l : PyVal)
  | obj (e : Edge)
deriving DecidableEq, Repr

/-- `edge[0]` of an edge description (tuple indexing or `_Edge.__getitem__`). -/
def EdgeDesc.fst : EdgeDesc → Int
  | .pair u _ => u
  | .triple u _ _ => u
  | .quad u _ _ _ => u
  | .obj e => e.u

/-- `edge[1]` of an edge description (tuple indexing or `_Edge.__getitem__`). -/
def EdgeDesc.snd : EdgeDesc → Int
  | .pair _ v => v
  | .triple _ v _ => v
  | .quad _ v _ _ => v
  | .obj e => e.v

/--
The per-description body of `Graph._populate_edges`: tuples of length 2, 3, 4
build `_Edge`s positionally (so the tuple's third entry lands in the `weight`
field and the fourth in `label`), an `_Edge` instance is added as is; for an
undirected graph the mirror is added as well — built from the swapped tuple
entries for tuples, but via the field-transposing `_Edge.reverse` for `_Edge`
instances.
-/
def populateOne (directed : Bool) (es : List Edge) : EdgeDesc → List Edge
  | .pair u v =>
      let es1 := setAdd es { u := u, v := v, weight := .int 0, label := .vnone }
      if directed then es1
      else setAdd es1 { u := v, v := u, weight := .int 0, label := .vnone }
  | .triple u v w =>
      let es1 := setAdd es { u := u, v := v, weight := w, label := .vnone }
      if directed then es1
      else setAdd es1 { u := v, v := u, weight := w, label := .vnone }
  | .quad u v w l =>
      let es1 := setAdd es { u := u, v := v, weight := w, label := l }
      if directed then es1
      else setAdd es1 { u := v, v := u, weight := w, label := l }
  | .obj e =>
      let es1 := setAdd es e
      if directed then es1 else setAdd es1 e.reverse

/--
`Graph._populate_edges`: validates that both endpoints of every description
are members of the vertex set (raising `ValueError` otherwise) and inserts
the corresponding edges in order.
-/
def populateEdges (vertices : List Int) (directed : Bool)
    (descs : List EdgeDesc) : Except String (List Edge) :=
  descs.foldlM
    (fun es d =>
      if d.fst ∉ vertices ∨ d.snd ∉ vertices then
        .error "ValueError: Edges must be between vertices contained in the graph"
      else .ok (populateOne directed es d))
    []

/-- `Graph.__init__(vertices, edges, directed)`. -/
def mkGraph (vertices : List Int) (descs : List EdgeDesc) (directed : Bool) :
    Except String Graph :=
  (populateEdges vertices directed descs).map
    (fun es => { vertices := vertices, edges := es, directed := directed })

/--
`Graph.new_edge(self, u, v, label=None, weight=0.0)`.  Two slips of the
source are reproduced exactly: the validation line reads
`if not u in self._vertices and v in self._vertices`, which by Python operator
precedence is `(not (u in V)) and (v in V)` and hence raises only when `u` is
absent while `v` is present; and both `self._Edge(u,v, label, weight)` calls
pass `label` and `weight` positionally into the constructor's `weight` and
`label` slots respectively, so the stored `weight` field receives the `label`
argument and vice versa.
-/
def newEdge (g : Graph) (u v : Int) (label weight : PyVal) :
    Except String Graph :=
  if u ∉ g.vertices ∧ v ∈ g.vertices then
    .error (toString u ++ " and  " ++ toString v ++ " are not valid vertices")
  else
    let es1 := setAdd g.edges { u := u, v := v, weight := label, label := weight }
    let es2 :=
      if g.directed then es1
      else setAdd es1 { u := v, v := u, weight := label, label := weight }
    .ok { g with edges := es2 }

/--
`Graph._are_neighbors(v1, v2)`: membership test `self._Edge(v1,v2) in
self._edges`, which under `_Edge.__eq__` asks whether some stored edge has
endpoints `(v1, v2)`.
-/
def areNeighbors (g : Graph) (v1 v2 : Int) : Bool :=
  g.edges.any (fun e => decide (e.u = v1) && decide (e.v = v2))

/--
`Graph._get_edge(v1, v2)`: `None` if no stored edge has endpoints `(v1,v2)`,
otherwise the first stored edge with those endpoints (the `for`/`break` scan
over the set; the set holds at most one such edge).
-/
def getEdgeG (g : Graph) (v1 v2 : Int) : Option Edge :=
  g.edges.find? (fun e => decide (e.u = v1) && decide (e.v = v2))

/--
`Graph._edge_weight(v1, v2)`: the stored `weight` field of the edge with the
given endpoints, or `values._inf` when the vertices are not neighbors.
-/
def edgeWeightG (g : Graph) (v1 v2 : Int) : PyVal :=
  match getEdgeG g v1 v2 with
  | some e => e.weight
  | none => .inf

/-- Insertion of an int into an ascending list, for `sortAsc`. -/
def insertAsc (x : Int) : List Int → List Int
  | [] => [x]
  | y :: ys => if x ≤ y then x :: y :: ys else y :: insertAsc x ys

/-- Ascending insertion sort (the effect of Python's `list.sort()`). -/
def sortAsc (l : List Int) : List Int :=
  l.foldr insertAsc []

/-- The sorted vertex list `vertices = list(self._vertices); vertices.sort()`. -/
def sortedVertices (g : Graph) : List Int :=
  sortAsc g.vertices

/--
`Graph.neighbors(vertex)`: the set of vertices `v` with
`_are_neighbors(vertex, v)`, iterated in ascending order (CPython small-int
set iteration order, which for the vertex sets of this repository is the
sorted order).
-/
def neighborsL (g : Graph) (vertex : Int) : List Int :=
  (sortedVertices g).filter (fun v => areNeighbors g vertex v)

/--
`Graph.__sub__` with an `_Edge` operand evaluates `Graph(self._vertices,
self._edges - other)`.  Python's `set.__sub__` requires a set operand and
returns `NotImplemented` on the single `_Edge` object, and `_Edge` defines no
`__rsub__`, so the subtraction raises `TypeError` unconditionally, before the
`Graph` constructor runs; no edge is ever removed.
-/
def graphSubEdge (_g : Graph) (_e : Edge) : Except String Graph :=
  .error "TypeError: unsupported operand types for -: set and _Edge"

/--
Python dict access `d[k]` on the distances dict, modelled as an association
list in key-insertion order: `none` is a `KeyError`.
-/
def dlookup : List (Int × PyVal) → Int → Option PyVal
  | [], _ => none
  | p :: d, k => if p.1 = k then some p.2 else dlookup d k

/--
Python dict assignment `d[k] = x` on the distances dict: the value of the
existing key `k` is replaced in place.  Every assignment the source performs
is to an existing key (`distances` is initialised over all vertices, and a
neighbor's distance is read before it is written), so replacement of all
`k`-keyed cells is a faithful model.
-/
def dupdate (d : List (Int × PyVal)) (k : Int) (x : PyVal) :
    List (Int × PyVal) :=
  d.map (fun p => if p.1 = k then (k, x) else p)

/--
The body of the `for neighbor in self.neighbors(current)` loop of
`Graph.dijkstra`, over the remaining neighbor list: computes
`tentative_dist = distances[current] + self._edge_weight(current, neighbor)`,
and when `distances[neighbor] > tentative_dist` is truthy, writes the new
distance and appends `neighbor` to the FIFO queue's pending puts
(`q.put(neighbor, distances[neighbor])` — the second argument of
`queue.Queue.put` is the `block` flag, not a priority).
-/
def relaxFold (g : Graph) (current : Int) :
    List Int → List (Int × PyVal) → List Int →
    Except String (List (Int × PyVal) × List Int)
  | [], dist, puts => .ok (dist, puts)
  | n :: ns, dist, puts =>
    match dlookup dist current with
    | none => .error "KeyError"
    | some dc =>
      match pyAddO dc (edgeWeightG g current n) with
      | none => .error "TypeError"
      | some t =>
        match dlookup dist n with
        | none => .error "KeyError"
        | some dn =>
          match pyGTb dn t with
          | none => .error "TypeError"
          | some b =>
            if b then relaxFold g current ns (dupdate dist n t) (puts ++ [n])
            else relaxFold g current ns dist puts

/--
The `while not q.empty()` loop of `Graph.dijkstra`: pop the FIFO queue's
front; if unvisited, mark visited and relax all neighbors, appending improved
neighbors to the queue.  The loop executes at most `1 + Σ_v deg(v)` iterations
(each put stems from the single visit of some vertex relaxing one neighbor),
which is at most `n² + n + 1` for `n` vertices — the fuel `dijkstra` passes
in below — so the fuel-exhaustion branch is never taken on any graph.
-/
def dijkstraLoop (g : Graph) :
    Nat → List Int → List (Int × PyVal) → List Int →
    Except String (List (Int × PyVal))
  | 0, _, dist, _ => .ok dist
  | _ + 1, _, dist, [] => .ok dist
  | fuel + 1, visited, dist, current :: rest =>
    if current ∈ visited then dijkstraLoop g fuel visited dist rest
    else
      match relaxFold g current (neighborsL g current) dist [] with
      | .error e => .error e
      | .ok (dist2, puts) =>
          dijkstraLoop g fuel (current :: visited) dist2 (rest ++ puts)

/--
`Graph.dijkstra(vertex)`: raises `ValueError` when the vertex is not in the
graph; otherwise initialises every distance to `values._inf`, the source's to
`0`, seeds the FIFO queue with the source, and runs the queue loop.
-/
def dijkstra (g : Graph) (vertex : Int) :
    Except String (List (Int × PyVal)) :=
  if vertex ∉ sortedVertices g then .error (toString vertex ++ " not in graph")
  else
    dijkstraLoop g
      ((sortedVertices g).length * (sortedVertices g).length +
        (sortedVertices g).length + 1)
      []
      (dupdate ((sortedVertices g).map (fun v => (v, PyVal.inf))) vertex (.int 0))
      [vertex]

/-- `D[i][j]` of the Floyd-Warshall working matrix (always in range). -/
def entryP (D : List (List PyVal)) (i j : Nat) : PyVal :=
  (D.getD i []).getD j (.int 0)

/-- `D[i][j] = x` on the Floyd-Warshall working matrix. -/
def setEntryP (D : List (List PyVal)) (i j : Nat) (x : PyVal) :
    List (List PyVal) :=
  D.set i ((D.getD i []).set j x)

/--
The initialisation loops of `Graph.floyd_warshall`: `D[i][i] = 0`, and for
`j ≠ i`, `D[i][j] = self._edge_weight(vertices[i], vertices[j])` when the two
are neighbors and `values._inf` otherwise.
-/
def fwInit (g : Graph) (vs : List Int) : List (List PyVal) :=
  (List.range vs.length).map (fun i =>
    (List.range vs.length).map (fun j =>
      if j = i then .int 0
      else if areNeighbors g (vs.getD i 0) (vs.getD j 0) then
        edgeWeightG g (vs.getD i 0) (vs.getD j 0)
      else .inf))

/--
One relaxation `D[i][j] = min(D[i][j], D[i][k] + D[k][j])` of
`Graph.floyd_warshall`; Python's two-argument `min(a, b)` returns `b` when
`b < a` is truthy and `a` otherwise.
-/
def fwStep (D : List (List PyVal)) (k i j : Nat) :
    Except String (List (List PyVal)) :=
  match pyAddO (entryP D i k) (entryP D k j) with
  | none => .error "TypeError"
  | some s =>
    match pyLTb s (entryP D i j) with
    | none => .error "TypeError"
    | some b => .ok (setEntryP D i j (if b then s else entryP D i j))

/--
`Graph.floyd_warshall()`: builds the initial distance matrix over the sorted
vertex list and relaxes it in place with the `k`, `i`, `j` triple loop.
-/
def floydWarshall (g : Graph) : Except String (List (List PyVal)) :=
  let vs := sortedVertices g
  let n := vs.length
  (List.range n).foldlM
    (fun D k =>
      (List.range n).foldlM
        (fun D i =>
          (List.range n).foldlM (fun D j => fwStep D k i j) D)
        D)
    (fwInit g vs)

/-- `self[i][j]` on a `Matrix` (entries of the claims are ints). -/
def entry (m : List (List Int)) (i j : Nat) : Int :=
  (m.getD i []).getD j 0

/--
In `Matrix.__add__` the dimension guard reads
`self.width() != other.width or self.height() != other.height()`: the first
comparison pits the int `self.width()` against the bound-method object
`other.width` (the call parentheses are missing), and an int never equals a
bound method, so that comparison — and with it the whole guard — is true for
every pair of matrices.
-/
def widthGuardAlwaysTrue (_A _B : List (List Int)) : Bool :=
  true

/--
`Matrix.__add__(other)`: raises `ValueError("Incompatible matrices")` when the
guard holds (which, by `widthGuardAlwaysTrue`, is always), and would otherwise
return the elementwise sum comprehension.
-/
def madd (A B : List (List Int)) : Except String (List (List Int)) :=
  if widthGuardAlwaysTrue A B || decide (A.length ≠ B.length) then
    .error "ValueError: Incompatible matrices"
  else
    .ok ((List.range A.length).map (fun i =>
      (List.range (A.headD []).length).map (fun j => entry A i j + entry B i j)))

/--
The comprehension of `Matrix.minor(p, q)`:
`[[self[j][i] for i in range(self.width()) if i != p]
  for j in range(self.height()) if j != q]`
(column `p` and row `q` removed).
-/
def minorL (m : List (List Int)) (p q : Nat) : List (List Int) :=
  ((List.range m.length).filter (fun j => j ≠ q)).map (fun j =>
    ((List.range (m.headD []).length).filter (fun i => i ≠ p)).map (fun i =>
      entry m j i))

/--
`Matrix.minor(p, q)`: evaluates `self.width()` (an `IndexError` on a
zero-row matrix, since `width` reads `self._matrix[0]`), checks
`0 <= p <= width-1` and `0 <= q <= height-1` (raising
`ValueError("index out of bounds")` otherwise; `0 <= p`/`0 <= q` always hold
here as the callers pass `range` indices), and returns the comprehension.
-/
def minorM (m : List (List Int)) (p q : Nat) :
    Except String (List (List Int)) :=
  match m with
  | [] => .error "IndexError"
  | r0 :: _ =>
    if ¬((p : Int) ≤ (r0.length : Int) - 1) ∨ ¬((q : Int) ≤ (m.length : Int) - 1) then
      .error "ValueError: index out of bounds"
    else .ok (minorL m p q)

/--
The body of `Matrix.det` with the recursive call abstracted: evaluating
`self.width()` raises `IndexError` on a zero-row matrix; a non-square matrix
raises `ValueError("Expected square Matrix")`; a 2×2 matrix returns
`self[0][0]*self[1][1] + (-1)*self[0][1]*self[1][0]`; otherwise the cofactor
expansion `sum((-1)**i * self[0][i] * self.minor(i,0).det() for i in
range(self.width()))` is evaluated left to right.
-/
def detBase (rec : List (List Int) → Except String Int)
    (m : List (List Int)) : Except String Int :=
  match m with
  | [] => .error "IndexError"
  | r0 :: _ =>
    if m.length ≠ r0.length then .error "ValueError: Expected square Matrix"
    else if m.length = 2 then
      .ok (entry m 0 0 * entry m 1 1 + (-1) * entry m 0 1 * entry m 1 0)
    else
      (List.range r0.length).foldlM
        (fun acc i => do
          let mi ← minorM m i 0
          let d ← rec mi
          pure (acc + (-1) ^ i * entry m 0 i * d))
        0

/--
`Matrix.det` by recursion on the height: each minor taken in the expansion
has exactly one row fewer, so the recursion depth of the source equals the
height, which `det` below passes as the structural recursion budget (the
zero-budget fallback is unreachable from `det`: a zero-height matrix is
caught by the `IndexError` branch of `detBase` before any recursive call).
-/
def detF : Nat → List (List Int) → Except String Int
  | 0, m => detBase (fun _ => .error "unreachable") m
  | fuel + 1, m => detBase (detF fuel) m

/-- `Matrix.det()`. -/
def det (m : List (List Int)) : Except String Int :=
  detF m.length m

/--
The cofactor expansion along the first row, stated with `det` itself on the
minors, for comparison with what `det` computes on matrices of height ≥ 3.
-/
def cofactorExpand (m : List (List Int)) : Except String Int :=
  (List.range (m.headD []).length).foldlM
    (fun acc i => do
      let mi ← minorM m i 0
      let d ← det mi
      pure (acc + (-1) ^ i * entry m 0 i * d))
    0

/-- Decidable equality of `Except` results, for evaluating concrete runs. -/
instance exceptDecEq {ε α : Type} [DecidableEq ε] [DecidableEq α] :
    DecidableEq (Except ε α)
  | .error e, .error f =>
    if h : e = f then .isTrue (by rw [h])
    else .isFalse (fun hh => by cases hh; exact h rfl)
  | .ok x, .ok y =>
    if h : x = y then .isTrue (by rw [h])
    else .isFalse (fun hh => by cases hh; exact h rfl)
  | .error _, .ok _ => .isFalse (fun hh => Except.noConfusion hh)
  | .ok _, .error _ => .isFalse (fun hh => Except.noConfusion hh)

/-- A value the Dijkstra distance dict can hold under non-negative finite
weights: `values._inf` or a non-negative int. -/
def IsDistVal (x : PyVal) : Prop :=
  x = .inf ∨ ∃ k : Int, x = .int k ∧ 0 ≤ k

/-- Whether a stored weight field is a non-negative int. -/
def PyVal.isNonnegInt : PyVal → Bool
  | .int n => decide (0 ≤ n)
  | _ => false

/-- All stored edge weights of the graph are non-negative ints. -/
def NonnegGraph (g : Graph) : Prop :=
  ∀ e ∈ g.edges, e.weight.isNonnegInt = true

/-- Invariant of the Dijkstra distance dict: the source keeps distance `0`
and every entry is `values._inf` or a non-negative int. -/
def GoodDist (v : Int) (dist : List (Int × PyVal)) : Prop :=
  dlookup dist v = some (.int 0) ∧ ∀ p ∈ dist, IsDistVal p.2

/-- The undirected graph on vertices 1..5 with weighted edges
(1,2,100), (1,3,1), (3,4,1), (4,2,1), (2,5,1): the result of constructing it
from those edge tuples. -/
def G1c : Graph :=
  { vertices := [1, 2, 3, 4, 5],
    edges := [⟨1, 2, .int 100, .vnone⟩, ⟨2, 1, .int 100, .vnone⟩,
              ⟨1, 3, .int 1, .vnone⟩, ⟨3, 1, .int 1, .vnone⟩,
              ⟨3, 4, .int 1, .vnone⟩, ⟨4, 3, .int 1, .vnone⟩,
              ⟨4, 2, .int 1, .vnone⟩, ⟨2, 4, .int 1, .vnone⟩,
              ⟨2, 5, .int 1, .vnone⟩, ⟨5, 2, .int 1, .vnone⟩],
    directed := false }

/-- The undirected graph on vertices {1,2} with the single weighted edge
(1,2,-5), as constructed from that edge tuple. -/
def G9c : Graph :=
  { vertices := [1, 2],
    edges := [⟨1, 2, .int (-5), .vnone⟩, ⟨2, 1, .int (-5), .vnone⟩],
    directed := false }

/-- The undirected triangle on vertices {1,2,3}, all edge weights 1. -/
def Gtric : Graph :=
  { vertices := [1, 2, 3],
    edges := [⟨1, 2, .int 1, .vnone⟩, ⟨2, 1, .int 1, .vnone⟩,
              ⟨2, 3, .int 1, .vnone⟩, ⟨3, 2, .int 1, .vnone⟩,
              ⟨1, 3, .int 1, .vnone⟩, ⟨3, 1, .int 1, .vnone⟩],
    directed := false }

/-- The distance dict `dijkstra(1)` computes on `Gtric`. -/
def dtric : List (Int × PyVal) :=
  [(1, .int 0), (2, .int 1), (3, .int 1)]

/-- The undirected graph on {1,2} with the single unweighted edge (1,2). -/
def G8c : Graph :=
  { vertices := [1, 2],
    edges := [⟨1, 2, .int 0, .vnone⟩, ⟨2, 1, .int 0, .vnone⟩],
    directed := false }

theorem dlookup_mem {d : List (Int × PyVal)} {k : Int} {x : PyVal}
    (h : dlookup d k = some x) : ∃ p ∈ d, p.2 = x := by
  induction d with
  | nil => simp [dlookup] at h
  | cons p d ih =>
    by_cases hp : p.1 = k
    · rw [dlookup, if_pos hp] at h
      exact ⟨p, List.mem_cons_self p d, Option.some.inj h⟩
    · rw [dlookup, if_neg hp] at h
      obtain ⟨q, hq, hqx⟩ := ih h
      exact ⟨q, List.mem_cons_of_mem p hq, hqx⟩

theorem dlookup_dupdate_ne {d : List (Int × PyVal)} {k k2 : Int} {x : PyVal}
    (h : k2 ≠ k) : dlookup (dupdate d k x) k2 = dlookup d k2 := by
  induction d with
  | nil => rfl
  | cons p d ih =>
    by_cases hp : p.1 = k
    · have : dupdate (p :: d) k x = (k, x) :: dupdate d k x := by
        simp [dupdate, hp]
      rw [this, dlookup, if_neg (fun hh => h hh.symm), ih, dlookup, if_neg]
      rw [hp]; exact fun hh => h hh.symm
    · have : dupdate (p :: d) k x = p :: dupdate d k x := by
        simp [dupdate, hp]
      rw [this, dlookup, dlookup, ih]

theorem mem_dupdate {p : Int × PyVal} {d : List (Int × PyVal)} {k : Int}
    {x : PyVal} (hp : p ∈ dupdate d k x) : p.2 = x ∨ p ∈ d := by
  unfold dupdate at hp
  obtain ⟨q, hq, he⟩ := List.mem_map.mp hp
  by_cases h : q.1 = k
  · rw [if_pos h] at he
    left; rw [← he]
  · rw [if_neg h] at he
    right; rw [← he]; exact hq

theorem init_lookup {l : List Int} {v : Int} (hv : v ∈ l) :
    dlookup (dupdate (l.map (fun u => (u, PyVal.inf))) v (.int 0)) v =
      some (.int 0) := by
  induction l with
  | nil => cases hv
  | cons u l ih =>
    by_cases hu : u = v
    · simp [dupdate, dlookup, hu]
    · have hst : dupdate ((u :: l).map (fun w => (w, PyVal.inf))) v (.int 0) =
          (u, PyVal.inf) :: dupdate (l.map (fun w => (w, PyVal.inf))) v (.int 0) := by
        simp [dupdate, hu]
      rw [hst, dlookup, if_neg hu]
      rcases List.mem_cons.mp hv with hh | hh
      · exact absurd hh.symm hu
      · exact ih hh

theorem edgeWeight_form {g : Graph} (hg : NonnegGraph g) (u w : Int) :
    IsDistVal (edgeWeightG g u w) := by
  unfold edgeWeightG getEdgeG
  cases hf : g.edges.find? (fun e => decide (e.u = u) && decide (e.v = w)) with
  | none => left; rfl
  | some e =>
    have he : e ∈ g.edges := List.mem_of_find?_eq_some hf
    have hw := hg e he
    show IsDistVal e.weight
    cases hwe : e.weight with
    | int n =>
      rw [hwe] at hw
      right
      exact ⟨n, rfl, by simpa [PyVal.isNonnegInt] using hw⟩
    | vnone => rw [hwe] at hw; simp [PyVal.isNonnegInt] at hw
    | str s => rw [hwe] at hw; simp [PyVal.isNonnegInt] at hw
    | inf => rw [hwe] at hw; simp [PyVal.isNonnegInt] at hw

theorem pyAddO_form {a b t : PyVal} (ha : IsDistVal a) (hb : IsDistVal b)
    (h : pyAddO a b = some t) : IsDistVal t := by
  rcases ha with ha | ⟨j, ha, hj⟩ <;> rcases hb with hb | ⟨k, hb, hk⟩ <;>
    subst ha <;> subst hb <;> simp [pyAddO] at h <;> subst h
  · left; rfl
  · left; rfl
  · left; rfl
  · right; exact ⟨j + k, rfl, by omega⟩

theorem relaxFold_good {g : Graph} (hg : NonnegGraph g) (v c : Int) :
    ∀ (ns : List Int) (dist : List (Int × PyVal)) (puts : List Int)
      (out : List (Int × PyVal) × List Int),
      GoodDist v dist → relaxFold g c ns dist puts = .ok out →
      GoodDist v out.1 := by
  intro ns
  induction ns with
  | nil =>
    intro dist puts out hgd h
    rw [relaxFold] at h
    cases h
    exact hgd
  | cons n ns ih =>
    intro dist puts out hgd h
    rw [relaxFold] at h
    split at h
    · cases h
    · rename_i dc h1
      split at h
      · cases h
      · rename_i t h2
        split at h
        · cases h
        · rename_i dn h3
          split at h
          · cases h
          · rename_i b h4
            have ht : IsDistVal t := by
              have hdc : IsDistVal dc := by
                obtain ⟨p, hp, hpx⟩ := dlookup_mem h1
                rw [← hpx]; exact hgd.2 p hp
              exact pyAddO_form hdc (edgeWeight_form hg c n) h2
            split at h
            · rename_i hb
              refine ih (dupdate dist n t) (puts ++ [n]) out ⟨?_, ?_⟩ h
              · by_cases hnv : n = v
                · subst hnv
                  rw [hgd.1] at h3
                  have hdn : dn = PyVal.int 0 := (Option.some.inj h3).symm
                  subst hdn hb
                  rcases ht with ht | ⟨k, ht, hk⟩ <;> subst ht <;>
                    simp [pyGTb] at h4
                  omega
                · rw [dlookup_dupdate_ne (fun hh => hnv hh.symm)]
                  exact hgd.1
              · intro p hp
                rcases mem_dupdate hp with hp2 | hp2
                · rw [hp2]; exact ht
                · exact hgd.2 p hp2
            · exact ih dist puts out hgd h

theorem dijkstraLoop_good {g : Graph} (hg : NonnegGraph g) (v : Int) :
    ∀ (fuel : Nat) (visited : List Int) (dist : List (Int × PyVal))
      (queue : List Int) (d : List (Int × PyVal)),
      GoodDist v dist → dijkstraLoop g fuel visited dist queue = .ok d →
      GoodDist v d := by
  intro fuel
  induction fuel with
  | zero =>
    intro visited dist queue d hgd h
    rw [dijkstraLoop] at h
    cases h
    exact hgd
  | succ fuel ih =>
    intro visited dist queue d hgd h
    cases queue with
    | nil => rw [dijkstraLoop] at h; cases h; exact hgd
    | cons current rest =>
      rw [dijkstraLoop] at h
      by_cases hv : current ∈ visited
      · rw [if_pos hv] at h
        exact ih visited dist rest d hgd h
      · rw [if_neg hv] at h
        split at h
        · cases h
        · rename_i dist2 puts hr
          exact ih (current :: visited) dist2 (rest ++ puts) d
            (relaxFold_good hg v current (neighborsL g current) dist []
              (dist2, puts) hgd hr) h

/--
C9 (amended): for every graph whose stored edge weights are all non-negative
ints, whenever `dijkstra(v)` returns a distance dict, that dict assigns
distance `0` to `v` itself.
-/
theorem dijkstra_source_zero_nonneg (g : Graph) (v : Int)
    (d : List (Int × PyVal)) (hg : NonnegGraph g)
    (h : dijkstra g v = .ok d) : dlookup d v = some (.int 0) := by
  rw [dijkstra] at h
  by_cases hv : v ∈ sortedVertices g
  · rw [if_neg (by simpa using hv)] at h
    have hinit : GoodDist v
        (dupdate ((sortedVertices g).map (fun u => (u, PyVal.inf))) v (.int 0)) := by
      constructor
      · exact init_lookup hv
      · intro p hp
        rcases mem_dupdate hp with hp2 | hp2
        · right; exact ⟨0, hp2, le_refl 0⟩
        · obtain ⟨u, hu, he⟩ := List.mem_map.mp hp2
          left; rw [← he]
    exact (dijkstraLoop_good hg v _ _ _ _ _ hinit h).1
  · rw [if_pos (by simpa using hv)] at h
    cases h

theorem range_filter_ne_zero_length (n : Nat) :
    ((List.range n).filter (fun j => j ≠ 0)).length = n - 1 := by
  induction n with
  | zero => rfl
  | succ n ih =>
    rw [List.range_succ, List.filter_append, List.length_append, ih]
    cases n with
    | zero => simp
    | succ k => simp

theorem minorL_length (m : List (List Int)) (p : Nat) :
    (minorL m p 0).length = m.length - 1 := by
  unfold minorL
  rw [List.length_map]
  exact range_filter_ne_zero_length m.length

theorem foldlM_congr_int {α : Type} (l : List α)
    (f f2 : Int → α → Except String Int)
    (hff : ∀ x ∈ l, ∀ acc : Int, f acc x = f2 acc x) :
    ∀ acc : Int, l.foldlM f acc = l.foldlM f2 acc := by
  induction l with
  | nil => intro acc; rfl
  | cons x l ih =>
    intro acc
    rw [List.foldlM_cons, List.foldlM_cons, hff x (List.mem_cons_self x l) acc]
    cases hx : f2 acc x with
    | error e => rfl
    | ok b =>
      show Except.ok b >>= (fun s => List.foldlM f s l) =
        Except.ok b >>= (fun s => List.foldlM f2 s l)
      exact ih (fun y hy => hff y (List.mem_cons_of_mem x hy)) b

/--
C7: `Matrix.det()` computes, on a 2×2 matrix `[[a,b],[c,d]]`, the value
`a*d - b*c`; on square matrices of height at least 3 it computes the cofactor
expansion along the first row, `sum_i (-1)^i * self[0][i] *
self.minor(i,0).det()`; and in particular on `[[1,2,3],[4,5,6],[7,8,10]]` it
returns `-3`.
-/
theorem det_cofactor_expansion :
    (∀ a b c d : Int, det [[a, b], [c, d]] = .ok (a * d - b * c)) ∧
    (∀ m : List (List Int), m.length = (m.headD []).length → 3 ≤ m.length →
      det m = cofactorExpand m) ∧
    det [[1, 2, 3], [4, 5, 6], [7, 8, 10]] = .ok (-3) := by
  refine ⟨?_, ?_, by decide⟩
  · intro a b c d
    show Except.ok (a * d + (-1) * b * c) = Except.ok (a * d - b * c)
    congr 1
    ring
  · intro m hsq h3
    cases m with
    | nil => simp at h3
    | cons r0 rest =>
      have hw : (r0 :: rest).headD [] = r0 := rfl
      rw [hw] at hsq
      show detF (r0 :: rest).length (r0 :: rest) = cofactorExpand (r0 :: rest)
      have hlen : (r0 :: rest).length = rest.length + 1 := rfl
      rw [hlen, detF]
      unfold detBase cofactorExpand
      rw [hw]
      dsimp only
      rw [if_neg (not_not_intro (hlen ▸ hsq)), if_neg (by omega)]
      refine foldlM_congr_int (List.range r0.length) _ _ ?_ 0
      intro i hi acc
      have hmin : minorM (r0 :: rest) i 0 = .ok (minorL (r0 :: rest) i 0) := by
        unfold minorM
        dsimp only
        rw [if_neg]
        push_neg
        have hi2 : i < r0.length := List.mem_range.mp hi
        have hr0 : 3 ≤ r0.length := by omega
        refine ⟨?_, ?_⟩ <;> omega
      rw [hmin]
      show (detF rest.length (minorL (r0 :: rest) i 0) >>=
          fun d => pure (acc + (-1) ^ i * entry (r0 :: rest) 0 i * d)) =
        (det (minorL (r0 :: rest) i 0) >>=
          fun d => pure (acc + (-1) ^ i * entry (r0 :: rest) 0 i * d))
      have hml : (minorL (r0 :: rest) i 0).length = rest.length := by
        rw [minorL_length]
        rfl
      rw [det, hml]

/--
Witness for `det_cofactor_expansion`: the general-case conjunct applied to the
concrete 3×3 matrix of the claim.
-/
theorem det_cofactor_expansion_witness :
    det [[1, 2, 3], [4, 5, 6], [7, 8, 10]] =
      cofactorExpand [[1, 2, 3], [4, 5, 6], [7, 8, 10]] :=
  det_cofactor_expansion.2.1 [[1, 2, 3], [4, 5, 6], [7, 8, 10]]
    (by decide) (by decide)

theorem find_setAdd_of_find {es : List Edge} {e m : Edge}
    {p : Edge → Bool} (hfind : es.find? p = some e) :
    (setAdd es m).find? p = some e := by
  unfold setAdd
  split
  · exact hfind
  · rw [List.find?_append, hfind]
    rfl

theorem setAdd_fresh {es : List Edge} {e : Edge}
    (hfresh : ∀ x ∈ es, ¬(x.u = e.u ∧ x.v = e.v)) :
    setAdd es e = es ++ [e] := by
  unfold setAdd
  rw [if_neg]
  intro hc
  rw [List.any_eq_true] at hc
  obtain ⟨x, hx, hpx⟩ := hc
  simp only [Edge.pyEq, Bool.and_eq_true, decide_eq_true_eq] at hpx
  exact hfresh x hx ⟨hpx.1.symm, hpx.2.symm⟩

theorem find_append_fresh {es : List Edge} {e : Edge} {u v : Int}
    (hu : e.u = u) (hv : e.v = v)
    (hfresh : ∀ x ∈ es, ¬(x.u = u ∧ x.v = v)) :
    (es ++ [e]).find? (fun x => decide (x.u = u) && decide (x.v = v)) =
      some e := by
  rw [List.find?_append]
  have hnone : es.find? (fun x => decide (x.u = u) && decide (x.v = v)) = none := by
    rw [List.find?_eq_none]
    intro x hx
    simp only [Bool.and_eq_true, decide_eq_true_eq, not_and]
    intro h1 h2
    exact hfresh x hx ⟨h1, h2⟩
  rw [hnone]
  simp [hu, hv]

/--
C6: inserting into a graph's edge collection an edge `e1` between endpoints
not yet connected, and then a second edge `e2` with the same ordered
endpoints (any weight and label), leaves exactly one edge with those
endpoints in the collection, and it is `e1` — the second insertion is a
silent no-op of the deduplicating `set.add` keyed on endpoints.
-/
theorem edge_first_writer_wins (g : Graph) (e1 e2 : Edge)
    (hu : e2.u = e1.u) (hv : e2.v = e1.v)
    (hfresh : ∀ e ∈ g.edges, ¬(e.u = e1.u ∧ e.v = e1.v)) :
    (setAdd (setAdd g.edges e1) e2).filter
      (fun x => decide (x.u = e1.u) && decide (x.v = e1.v)) = [e1] := by
  rw [setAdd_fresh (fun x hx => hfresh x hx)]
  have hadd2 : setAdd (g.edges ++ [e1]) e2 = g.edges ++ [e1] := by
    unfold setAdd
    rw [if_pos]
    rw [List.any_eq_true]
    refine ⟨e1, by simp, ?_⟩
    simp [Edge.pyEq, hu, hv]
  rw [hadd2, List.filter_append]
  have hfl : g.edges.filter
      (fun x => decide (x.u = e1.u) && decide (x.v = e1.v)) = [] := by
    rw [List.filter_eq_nil_iff]
    intro x hx
    simp only [Bool.and_eq_true, decide_eq_true_eq, not_and]
    intro h1 h2
    exact hfresh x hx ⟨h1, h2⟩
  rw [hfl]
  simp

/--
Witness for `edge_first_writer_wins`: adding `(1,2)` with weight 1 and then
`(1,2)` with weight 7 and a label to an empty edge collection leaves exactly
the first edge.
-/
theorem edge_first_writer_wins_witness :
    (setAdd (setAdd (Graph.mk [1, 2] [] false).edges ⟨1, 2, .int 1, .vnone⟩)
        ⟨1, 2, .int 7, .str "x"⟩).filter
      (fun x => decide (x.u = 1) && decide (x.v = 2)) =
      [⟨1, 2, .int 1, .vnone⟩] :=
  edge_first_writer_wins (Graph.mk [1, 2] [] false)
    ⟨1, 2, .int 1, .vnone⟩ ⟨1, 2, .int 7, .str "x"⟩ rfl rfl (by simp)

/--
C10: for vertices `u`, `v` of a graph not yet joined by a `(u,v)` edge,
`new_edge(u, v, label, weight)` succeeds and stores an edge whose `weight`
field is the `label` argument and whose `label` field is the `weight`
argument (the arguments are passed in transposed order to the `_Edge`
constructor), so `_edge_weight(u, v)` afterwards returns the `label` argument
— in particular `None` rather than the default weight `0` after a default
`new_edge(u, v)` call.
-/
theorem find_ite_setAdd {b : Bool} {es : List Edge} {m : Edge}
    {p : Edge → Bool} {e : Edge} (h : es.find? p = some e) :
    (if b then es else setAdd es m).find? p = some e := by
  cases b
  · exact find_setAdd_of_find h
  · exact h

theorem newEdge_ok (g : Graph) (u v : Int) (l w : PyVal)
    (hu : u ∈ g.vertices) :
    newEdge g u v l w = .ok { g with edges :=
      (if g.directed then setAdd g.edges ⟨u, v, l, w⟩
       else setAdd (setAdd g.edges ⟨u, v, l, w⟩) ⟨v, u, l, w⟩) } := by
  rw [newEdge, if_neg (fun hc => hc.1 hu)]

/--
C10: for vertices `u`, `v` of a graph not yet joined by a `(u,v)` edge,
`new_edge(u, v, label, weight)` succeeds and stores an edge whose `weight`
field is the `label` argument and whose `label` field is the `weight`
argument (the arguments are passed in transposed order to the `_Edge`
constructor), so `_edge_weight(u, v)` afterwards returns the `label` argument
— in particular `None` rather than the default weight `0` after a default
`new_edge(u, v)` call.
-/
theorem new_edge_transposed_payload (g : Graph) (u v : Int) (l w : PyVal)
    (hu : u ∈ g.vertices) (_hv : v ∈ g.vertices)
    (hfresh : ∀ e ∈ g.edges, ¬(e.u = u ∧ e.v = v)) :
    ∃ g2, newEdge g u v l w = .ok g2 ∧
      getEdgeG g2 u v = some { u := u, v := v, weight := l, label := w } ∧
      edgeWeightG g2 u v = l := by
  have hadd1 : setAdd g.edges { u := u, v := v, weight := l, label := w } =
      g.edges ++ [{ u := u, v := v, weight := l, label := w }] :=
    setAdd_fresh (fun x hx => hfresh x hx)
  have hfind1 : (setAdd g.edges { u := u, v := v, weight := l, label := w }).find?
      (fun x => decide (x.u = u) && decide (x.v = v)) =
      some { u := u, v := v, weight := l, label := w } := by
    rw [hadd1]
    exact find_append_fresh rfl rfl hfresh
  have hget : getEdgeG { g with edges :=
      (if g.directed then setAdd g.edges ⟨u, v, l, w⟩
       else setAdd (setAdd g.edges ⟨u, v, l, w⟩) ⟨v, u, l, w⟩) } u v =
      some { u := u, v := v, weight := l, label := w } := by
    unfold getEdgeG
    exact find_ite_setAdd hfind1
  have hwt : edgeWeightG { g with edges :=
      (if g.directed then setAdd g.edges ⟨u, v, l, w⟩
       else setAdd (setAdd g.edges ⟨u, v, l, w⟩) ⟨v, u, l, w⟩) } u v = l := by
    unfold edgeWeightG
    rw [hget]
  exact ⟨_, newEdge_ok g u v l w hu, hget, hwt⟩

/--
Witness for `new_edge_transposed_payload`: a default `new_edge(1, 2)` call on
a two-vertex graph stores the edge `(1, 2)` with `weight = None` and
`label = 0.0`, and `_edge_weight(1, 2)` then returns `None`.
-/
theorem new_edge_transposed_payload_witness :
    ∃ g2, newEdge (Graph.mk [1, 2] [] false) 1 2 .vnone (.int 0) = .ok g2 ∧
      getEdgeG g2 1 2 = some ⟨1, 2, .vnone, .int 0⟩ ∧
      edgeWeightG g2 1 2 = .vnone :=
  new_edge_transposed_payload (Graph.mk [1, 2] [] false) 1 2 .vnone (.int 0)
    (by simp) (by simp) (by simp)

/--
C1: on the undirected graph `G1c` (non-negative finite weights, sortable
vertices), `floyd_warshall()` and the stacked `dijkstra(v)` rows disagree:
the Floyd-Warshall entry for the sorted vertex pair (1, 5) — row 0, column 4
— is 4 (the true shortest path 1-3-4-2-5), while `dijkstra(1)[5]` is 101,
because the FIFO `queue.Queue` (whose `put` second argument is the `block`
flag, not a priority) pops vertex 2 while its tentative distance is still
100 and the later improvement of vertex 2 never propagates to vertex 5.
-/
theorem dijkstra_floyd_warshall_disagree :
    mkGraph [1, 2, 3, 4, 5]
      [.triple 1 2 (.int 100), .triple 1 3 (.int 1), .triple 3 4 (.int 1),
       .triple 4 2 (.int 1), .triple 2 5 (.int 1)] false = .ok G1c ∧
    (dijkstra G1c 1).map (fun d => dlookup d 5) = .ok (some (.int 101)) ∧
    (floydWarshall G1c).map (fun D => entryP D 0 4) = .ok (.int 4) :=
  ⟨by decide, by decide, by decide⟩

/--
C2: `Matrix.__add__` raises `ValueError("Incompatible matrices")` on every
pair of matrices, including dimension-matched ones, because its guard
compares `self.width()` with the uncalled bound method `other.width`.
-/
theorem matrix_add_always_errors :
    madd [[1]] [[1]] = .error "ValueError: Incompatible matrices" ∧
    madd [[1, 2], [3, 4]] [[5, 6], [7, 8]] =
      .error "ValueError: Incompatible matrices" ∧
    ∀ A B : List (List Int),
      madd A B = .error "ValueError: Incompatible matrices" :=
  ⟨by decide, by decide, fun A B => by simp [madd, widthGuardAlwaysTrue]⟩

/--
C3: `new_edge` validates with `if not u in self._vertices and v in
self._vertices`, so it does not raise when `u` is present and `v` is absent
(first conjunct), nor when both endpoints are absent (second conjunct) — in
both cases the invalid edge and its mirror are inserted — and raises only
when `u` is absent while `v` is present (third conjunct).
-/
theorem new_edge_validation_gap :
    newEdge (Graph.mk [1] [] false) 1 2 .vnone (.int 0) =
      .ok (Graph.mk [1] [⟨1, 2, .vnone, .int 0⟩, ⟨2, 1, .vnone, .int 0⟩] false) ∧
    newEdge (Graph.mk [1] [] false) 5 6 .vnone (.int 0) =
      .ok (Graph.mk [1] [⟨5, 6, .vnone, .int 0⟩, ⟨6, 5, .vnone, .int 0⟩] false) ∧
    newEdge (Graph.mk [2] [] false) 1 2 .vnone (.int 0) =
      .error "1 and  2 are not valid vertices" :=
  ⟨by decide, by decide, by decide⟩

/--
C4: `values` addition returns Infinity on Infinity plus a finite number and
on Infinity plus Infinity, NegativeInfinity likewise, in both operand orders;
but Infinity plus NegativeInfinity does not raise any error: the `__add__`
body falls through (its final `NotImplemented` is not returned) and the
addition evaluates to the value `None`.
-/
theorem values_add_behavior :
    (∀ n : Int, pyNumAdd .pinf (.fin n) = some .pinf) ∧
    (∀ n : Int, pyNumAdd (.fin n) .pinf = some .pinf) ∧
    (∀ n : Int, pyNumAdd .ninf (.fin n) = some .ninf) ∧
    (∀ n : Int, pyNumAdd (.fin n) .ninf = some .ninf) ∧
    pyNumAdd .pinf .pinf = some .pinf ∧
    pyNumAdd .ninf .ninf = some .ninf ∧
    pyNumAdd .pinf .ninf = none ∧
    pyNumAdd .ninf .pinf = none :=
  ⟨fun _ => rfl, fun _ => rfl, fun _ => rfl, fun _ => rfl, rfl, rfl, rfl, rfl⟩

/--
C5: constructing an undirected graph from the `_Edge` instance (1, 2, weight
5, label "a") stores the mirror produced by `_Edge.reverse`, whose weight and
label fields are swapped — the stored reverse edge is (2, 1, weight "a",
label 5) — so no stored (2,1) edge carries the same weight 5 and label "a"
and the undirected mirror invariant fails.
-/
theorem undirected_mirror_swapped :
    mkGraph [1, 2] [.obj ⟨1, 2, .int 5, .str "a"⟩] false =
      .ok (Graph.mk [1, 2]
        [⟨1, 2, .int 5, .str "a"⟩, ⟨2, 1, .str "a", .int 5⟩] false) ∧
    (mkGraph [1, 2] [.obj ⟨1, 2, .int 5, .str "a"⟩] false).map (fun g =>
      g.edges.any (fun e =>
        decide (e.u = 2) && decide (e.v = 1) &&
        decide (e.weight = .int 5) && decide (e.label = .str "a"))) =
      .ok false :=
  ⟨by decide, by decide⟩

/--
C8: `Graph.__sub__` with an edge operand raises `TypeError` for every graph
and every edge — also when the edge is present in the graph — because it
subtracts the bare `_Edge` object (not a set) from the edge set; it never
returns the graph with the edge removed.
-/
theorem graph_sub_edge_type_error (g : Graph) (e : Edge) (_he : e ∈ g.edges) :
    graphSubEdge g e =
      .error "TypeError: unsupported operand types for -: set and _Edge" :=
  rfl

/--
Witness for `graph_sub_edge_type_error`: subtracting the present edge (1, 2)
from the two-vertex one-edge graph `G8c` raises `TypeError`.
-/
theorem graph_sub_edge_type_error_witness :
    (⟨1, 2, .int 0, .vnone⟩ : Edge) ∈ G8c.edges ∧
    graphSubEdge G8c ⟨1, 2, .int 0, .vnone⟩ =
      .error "TypeError: unsupported operand types for -: set and _Edge" :=
  ⟨by decide, graph_sub_edge_type_error G8c ⟨1, 2, .int 0, .vnone⟩ (by decide)⟩

/--
C9 (counterexample): on the undirected graph `G9c` with the single edge
(1, 2) of weight -5, `dijkstra(1)` assigns distance -10 — not 0 — to the
source vertex 1 itself (the relaxation 1 → 2 → 1 lowers the source's
distance below 0), refuting the claim for graphs with negative weights.
-/
theorem dijkstra_source_nonzero_negative_weight :
    mkGraph [1, 2] [.triple 1 2 (.int (-5))] false = .ok G9c ∧
    (dijkstra G9c 1).map (fun d => dlookup d 1) = .ok (some (.int (-10))) ∧
    (dijkstra G9c 1).map (fun d => dlookup d 1) ≠ .ok (some (.int 0)) :=
  ⟨by decide, by decide, by decide⟩

/--
Witness for `dijkstra_source_zero_nonneg`: on the unit-weight triangle
`Gtric`, `dijkstra(1)` returns `dtric`, which assigns distance 0 to vertex 1.
-/
theorem dijkstra_source_zero_nonneg_witness :
    NonnegGraph Gtric ∧ dlookup dtric 1 = some (.int 0) :=
  ⟨by unfold NonnegGraph; decide,
   dijkstra_source_zero_nonneg Gtric 1 dtric
     (by unfold NonnegGraph; decide) (by decide)⟩
